import Mathlib

/-! Verification of the procs process-pipeline library (process.go).

The Go source is shallowly embedded: each definition mirrors the function
of the same name in process.go. Go slice or index operations that can
panic at runtime are modelled with Option (none stands for the panic),
since the Go functions involved have no error return of their own.
Process execution itself is external to the library, so each command
carries a behaviour oracle: the error its Start would produce and the
exit error its Wait would report. -/

set_option autoImplicit false

/-! ### Model of the Go standard library os.Expand

Process.expand delegates to os.ExpandEnv / os.Expand, so the stdlib
scanner is reproduced here: isShellSpecialVar, getShellName and the
Expand loop, translated from the Go sources of the os package.
The recursion is driven by a fuel argument; the initial fuel
length + 1 exceeds the recursion depth, so the 0-fuel arm is never
reached from osExpand. -/

def isShellSpecialVar (c : Char) : Bool :=
  c = '*' || c = '#' || c = '$' || c = '@' || c = '!' || c = '?' || c = '-' ||
  ('0' ≤ c && c ≤ '9')

def isAlphaNum (c : Char) : Bool :=
  c = '_' || ('0' ≤ c && c ≤ '9') || ('a' ≤ c && c ≤ 'z') || ('A' ≤ c && c ≤ 'Z')

/-- Scan of the brace form: the input is the text following the opening
    brace. Mirrors the closing-brace loop of Go os.getShellName. -/
def braceScan (rest : List Char) : List Char × Nat :=
  match rest.findIdx? (fun x => x = '\x7d') with
  | none => ([], 1)
  | some 0 => ([], 2)
  | some j => (rest.take j, j + 2)

/-- Model of Go os.getShellName: the variable name that follows a dollar
    sign, together with the number of consumed input characters. -/
def getShellName (s : List Char) : List Char × Nat :=
  match s with
  | [] => ([], 0)
  | c :: rest =>
    if c = '\x7b' then
      match rest with
      | c1 :: c2 :: _ =>
        if isShellSpecialVar c1 && c2 = '\x7d' then ([c1], 3) else braceScan rest
      | _ => braceScan rest
    else if isShellSpecialVar c then ([c], 1)
    else (s.takeWhile isAlphaNum, (s.takeWhile isAlphaNum).length)

/-- The scanning loop of Go os.Expand over the character list. -/
def osExpandGo (mapping : String → String) : Nat → List Char → List Char
  | 0, _ => []
  | _ + 1, [] => []
  | fuel + 1, c :: rest =>
    if c = '$' && !rest.isEmpty then
      let r := getShellName rest
      if r.1.isEmpty && r.2 > 0 then
        osExpandGo mapping fuel (rest.drop r.2)
      else if r.1.isEmpty then
        c :: osExpandGo mapping fuel (rest.drop r.2)
      else
        (mapping (String.mk r.1)).data ++ osExpandGo mapping fuel (rest.drop r.2)
    else
      c :: osExpandGo mapping fuel rest

/-- Model of Go os.Expand: substitute mapping(NAME) for each dollar-NAME
    and dollar-brace-NAME reference in s. os.ExpandEnv s is
    osExpand ambient s, where ambient is the ambient process
    environment (os.Getenv). -/
def osExpand (mapping : String → String) (s : String) : String :=
  String.mk (osExpandGo mapping (s.data.length + 1) s.data)

/-! ### The Process data model (process.go lines 14-48) -/

/-- Where a command's standard input is connected. -/
inductive StdinSrc
  | inherited
  | pipeFromStdout (i : Nat)
  deriving DecidableEq

/-- Where a command's standard output or standard error is connected. -/
inductive OutStream
  | inherited
  | pipeToNext
  | errBuffer
  | toLineReader
  deriving DecidableEq

/-- Model of exec.Cmd as configured by this library: argv, working
    directory, environment list and the stream wiring set up by
    setupPipes / setupOutputHandler. -/
structure Cmd where
  path : String
  args : List String
  dir : Option String := none
  env : Option (List String) := none
  stdin : StdinSrc := StdinSrc.inherited
  stdout : OutStream := OutStream.inherited
  stderr : OutStream := OutStream.inherited
  deriving DecidableEq

/-- Model of the configuration fields of Process (lines 15-43). The Go
    map Env is modelled as an association list; the OutputHandler is a
    function value and is passed separately to the line reader. -/
structure ProcessState where
  CmdString : String
  Cmds : List Cmd := []
  Env : Option (List (String × String)) := none
  Dir : String := ""
  deriving DecidableEq

/-- Model of Process.expand (lines 51-60). The source tests
    p.Env != nil and then calls os.ExpandEnv, which resolves names in
    the ambient process environment; in the remaining branch (p.Env is
    nil) it calls os.Expand with a lookup in the nil map p.Env, which
    yields the empty string for every key. -/
def Process.expand (env? : Option (List (String × String)))
    (ambient : String → String) (s : String) : String :=
  match env? with
  | some _ => osExpand ambient s
  | none => osExpand (fun _ => "") s

/-- Model of Process.addCmd (lines 62-86). exec.Command(cmdparts[0], ...)
    indexes an empty cmdparts slice out of range, a runtime panic,
    modelled as none. With p.Env non-nil the child environment is one
    KEY=expand(value) entry per Env entry. -/
def addCmd (ambient : String → String) (p : ProcessState)
    (cmdparts : List String) : Option ProcessState :=
  match cmdparts with
  | [] => none
  | name :: rest =>
    let c0 : Cmd := { path := name, args := rest }
    let c1 : Cmd := if p.Dir = "" then c0 else { c0 with dir := some p.Dir }
    let c2 : Cmd :=
      match p.Env with
      | none => c1
      | some l =>
        { c1 with
          env := some (l.map (fun kv =>
            kv.1 ++ "=" ++ Process.expand p.Env ambient kv.2)) }
    some { p with Cmds := p.Cmds ++ [c2] }

/-- One iteration of the pipe-grouping loop of findCmds (lines
    107-114): at a "|" token flush the word group collected so far,
    otherwise append the token to the current group. -/
def pipeStep (acc : List (List String) × List String) (part : String) :
    List (List String) × List String :=
  if part = "|" then (acc.1 ++ [acc.2], ([] : List String))
  else (acc.1, acc.2 ++ [part])

/-- The pipe-grouping loop of findCmds (lines 106-116): flush the word
    group collected so far at every "|" token, and flush the final
    group unconditionally at the end. -/
def pipeGroups (parts : List String) : List (List String) :=
  let r := parts.foldl pipeStep (([] : List (List String)), ([] : List String))
  r.1 ++ [r.2]

/-- findCmds from the token list onward (lines 106-116): one addCmd call
    per pipe group, in order. -/
def findCmdsFromParts (ambient : String → String) (p : ProcessState)
    (parts : List String) : Option ProcessState :=
  (pipeGroups parts).foldlM (addCmd ambient) p

/-- Model of Process.findCmds (lines 90-117). The tokenizer SplitCommand
    is not part of process.go and is supplied as the parameter split;
    every token is passed through Process.expand before the pipe
    grouping. -/
def findCmds (split : String → List String) (ambient : String → String)
    (p : ProcessState) : Option ProcessState :=
  if p.Cmds.length > 0 then some p
  else if p.CmdString = "" then some p
  else findCmdsFromParts ambient p
    ((split p.CmdString).map (Process.expand p.Env ambient))

/-! ### setupPipes and setupOutputHandler (lines 163-199) -/

/-- The wiring that the setupPipes loop applies to the command at
    index i, with last the index of the final command: commands after
    the first read the previous command's stdout pipe; commands before
    the last pipe stdout onward and send stderr to the error buffer;
    the last command's stdout and stderr feed the line readers. -/
def wireCmd (last i : Nat) (c : Cmd) : Cmd :=
  let c1 :=
    if 1 ≤ i then { c with stdin := StdinSrc.pipeFromStdout (i - 1) } else c
  if i < last then
    { c1 with stdout := OutStream.pipeToNext, stderr := OutStream.errBuffer }
  else
    { c1 with stdout := OutStream.toLineReader, stderr := OutStream.toLineReader }

/-- Apply wireCmd positionally, starting at index i. -/
def wireList (last : Nat) : Nat → List Cmd → List Cmd
  | _, [] => []
  | i, c :: rest => wireCmd last i c :: wireList last (i + 1) rest

/-- Model of Process.setupPipes (lines 182-199) together with
    setupOutputHandler (lines 165-180) on the last command. With an
    empty command list, last is -1 and the Go slice expression
    p.Cmds[:last] panics with a slice bounds error: none. -/
def setupPipes (cmds : List Cmd) : Option (List Cmd) :=
  match cmds with
  | [] => none
  | _ => some (wireList (cmds.length - 1) 0 cmds)

/-! ### Runtime model: starting and waiting (lines 201-275)

Each command carries its behaviour oracle: startErr is the error its
first genuine Start would return, exitErr the exit error its Wait
reports. started, waited and startAttempts record what the library
did to the command. -/

structure CmdRuntime where
  startErr : Option String
  exitErr : Option String
  started : Bool := false
  waited : Bool := false
  startAttempts : Nat := 0
  deriving DecidableEq

/-- A fresh runtime command from a (startErr, exitErr) behaviour pair. -/
def mkRuntime (b : Option String × Option String) : CmdRuntime :=
  { startErr := b.1, exitErr := b.2 }

/-- Model of exec.Cmd.Start: a second Start on the same command fails
    with "exec: already started"; otherwise the oracle decides. -/
def cmdStart (c : CmdRuntime) : CmdRuntime × Option String :=
  if c.started then
    ({ c with startAttempts := c.startAttempts + 1 }, some "exec: already started")
  else
    match c.startErr with
    | some e => ({ c with startAttempts := c.startAttempts + 1 }, some e)
    | none =>
      ({ c with started := true, startAttempts := c.startAttempts + 1 }, none)

/-- Model of exec.Cmd.Wait: reap the process and report its exit error. -/
def cmdWaitR (c : CmdRuntime) : CmdRuntime × Option String :=
  ({ c with waited := true }, c.exitErr)

/-- Model of the internal Process.start (lines 201-216): start each
    command in order; on the first failure return that error, after the
    deferred loop has waited on every earlier, already-started command. -/
def pstart : List CmdRuntime → List CmdRuntime × Option String
  | [] => ([], none)
  | c :: rest =>
    match cmdStart c with
    | (c1, some e) => (c1 :: rest, some e)
    | (c1, none) =>
      match pstart rest with
      | (rest1, some e) => ((cmdWaitR c1).1 :: rest1, some e)
      | (rest1, none) => (c1 :: rest1, none)

/-- Model of the internal Process.wait (lines 218-223): wait on every
    command, discard each exit error, and always return nil. -/
def pwait (cs : List CmdRuntime) : List CmdRuntime × Option String :=
  (cs.map (fun c => (cmdWaitR c).1), none)

/-- Model of the execution phase of Process.Run (lines 226-239), after
    findCmds and setupPipes: on a start failure Run returns ("", err);
    otherwise it calls the internal wait and returns the buffered
    output (here the parameter buf) with a nil error. -/
def RunExec (buf : String) (cs : List CmdRuntime) :
    List CmdRuntime × String × Option String :=
  match pstart cs with
  | (cs1, some e) => (cs1, "", some e)
  | (cs1, none) => ((pwait cs1).1, buf, none)

/-- Model of the public Process.Start (lines 242-265): after a
    successful internal start it runs a second, textually identical
    start loop (lines 252-262) over the same commands. -/
def StartPub (cs : List CmdRuntime) : List CmdRuntime × Option String :=
  match pstart cs with
  | (cs1, some e) => (cs1, some e)
  | (cs1, none) => pstart cs1

/-- Model of the public Process.Wait (lines 268-275): wait on Cmds[last]
    and return its exit error; with no commands, Cmds[-1] is an index
    panic: none. The outputWait join is a pure synchronization point
    and adds nothing to the returned value. -/
def WaitPub (cs : List CmdRuntime) :
    Option (List CmdRuntime × Option String) :=
  match cs.getLast? with
  | none => none
  | some c => some (cs.dropLast ++ [(cmdWaitR c).1], (cmdWaitR c).2)

/-! ### The line reader (lines 119-153) -/

/-- Lines 143-146: pass the completed line through the OutputHandler
    when one is configured. -/
def applyHandler (h : Option (String → String)) (line : List Char) : List Char :=
  match h with
  | none => line
  | some f => (f (String.mk line)).data

/-- The inner scan of Process.lineReader (lines 136-151): split the
    chunk at each newline; every completed line (pending buffer plus
    chunk prefix, newline excluded) goes through the handler and is
    appended to the output; the remainder becomes the pending buffer. -/
def processChunk (h : Option (String → String)) :
    List Char → List Char → List Char × List Char
  | pending, [] => ([], pending)
  | pending, c :: rest =>
    if c = '\n' then
      let r := processChunk h [] rest
      (applyHandler h pending ++ r.1, r.2)
    else
      processChunk h (pending ++ [c]) rest

/-- The outer read loop of Process.lineReader (lines 127-152): every
    element of chunks is the content of one successful Read; the loop
    returns at the first read error or end of input (the end of the
    list), discarding the pending buffer. -/
def lineReaderLoop (h : Option (String → String)) :
    List (List Char) → List Char → List Char
  | [], _pending => []
  | chunk :: rest, pending =>
    let r := processChunk h pending chunk
    r.1 ++ lineReaderLoop h rest r.2

/-- Model of Process.lineReader (lines 121-153): the output-buffer
    content contributed by one drained stream. -/
def lineReader (h : Option (String → String)) (chunks : List (List Char)) :
    List Char :=
  lineReaderLoop h chunks []

/-- Specification-side line splitter, named from the spec's wording for
    the reader contract: the complete newline-terminated lines of the
    input (each without its newline) together with the trailing data
    after the last newline. -/
def splitNL : List Char → List (List Char) × List Char
  | [] => ([], [])
  | c :: rest =>
    let r := splitNL rest
    if c = '\n' then (([] : List Char) :: r.1, r.2)
    else
      match r.1 with
      | [] => ([], c :: r.2)
      | l :: ls => ((c :: l) :: ls, r.2)

/-- ASCII uppercase of one character, used as a concrete line
    transform. -/
def upChar (c : Char) : Char :=
  if c.isLower then Char.ofNat (c.toNat - 32) else c

/-- ASCII uppercase of a string, a concrete OutputHandler. -/
def upString (s : String) : String :=
  String.mk (s.data.map upChar)

/-! ### Claim theorems -/

/-- C1: the claim says that with a caller-supplied Env the reference is
resolved only against that mapping (missing key giving the empty
string), and with no Env against the ambient environment. The code does
the opposite: with Env non-nil, expand calls os.ExpandEnv, so the
mapping entry FOO=bar is ignored and the ambient value is substituted;
with Env nil, expand looks keys up in the nil map, so the ambient value
is ignored and the empty string is substituted. Both evaluations below
exhibit this at the token dollar-FOO with ambient FOO=zzz. -/
theorem claim_C1_expand_inverted :
    Process.expand (some [("FOO", "bar")])
      (fun k => if k = "FOO" then "zzz" else "") "$FOO" = "zzz"
  ∧ Process.expand none
      (fun k => if k = "FOO" then "zzz" else "") "$FOO" = "" := by
  decide

/-- C2: the claim says both Wait and Run surface the terminal stage's
own exit error. Wait does (second conjunct), but Run does not: for a
single-stage pipeline whose process exits with "exit status 1", Run
starts it, waits via the internal wait (which discards every exit
error and always returns nil), and returns a nil error (first
conjunct). -/
theorem claim_C2_run_discards_exit :
    RunExec "out" [mkRuntime (none, some "exit status 1")]
      = ([{ startErr := none, exitErr := some "exit status 1",
            started := true, waited := true, startAttempts := 1 }],
         "out", none)
  ∧ WaitPub [mkRuntime (none, some "exit status 1")]
      = some ([{ startErr := none, exitErr := some "exit status 1",
                 started := false, waited := true, startAttempts := 0 }],
              some "exit status 1") := by
  decide

/-- C3: the claim says an empty word group (leading, trailing or
doubled pipe) is signalled as a configuration or parse error. The code
has no error channel in findCmds or addCmd at all: on the token list of
the command string "| echo hi" the leading pipe flushes an empty group,
and addCmd indexes cmdparts[0] on an empty slice, an index-out-of-range
panic (modelled as none), so no error value ever reaches the caller. -/
theorem claim_C3_empty_group_crashes :
    findCmdsFromParts (fun _ => "") { CmdString := "| echo hi" }
      ["|", "echo", "hi"] = none := by
  decide

/-- C4: the claim says the public Start starts each stage exactly once
and returns an error only when some stage fails to start. For a
single-stage pipeline whose process starts fine, Start's internal start
loop succeeds, and then the duplicated second loop calls Start on the
already-started command: the command records two start attempts and
Start returns the error "exec: already started" although no stage
failed to start. -/
theorem claim_C4_start_runs_twice :
    StartPub [mkRuntime (none, none)]
      = ([{ startErr := none, exitErr := none, started := true,
            waited := false, startAttempts := 2 }],
         some "exec: already started") := by
  decide

/-- C9: the claim says the empty command string is accepted, an executed
pipeline has at least one stage, and setupPipes and Wait never access a
stage index outside the stage list. With CmdString empty and no
pre-built commands, findCmds returns with zero stages (first conjunct),
after which setupPipes evaluates the Go slice Cmds[:-1] and Wait
evaluates Cmds[-1], both out-of-range panics (modelled as none). -/
theorem claim_C9_empty_cmdstring_crashes :
    findCmds (fun _ => []) (fun _ => "") { CmdString := "" }
      = some { CmdString := "" }
  ∧ setupPipes [] = none
  ∧ WaitPub [] = none := by
  decide

/-- C10: with an environment override supplied (Env non-nil), addCmd
builds the child environment as exactly one KEY=value entry per entry of
the mapping, with every value passed through Process.expand before use,
and every entry of the child environment stems from the mapping (so no
ambient KEY=value entry is included). -/
theorem claim_C10_env_entries (amb : String → String) (s dir : String)
    (l : List (String × String)) (cmdparts : List String)
    (hne : cmdparts ≠ []) :
    ∃ p' c es,
      addCmd amb { CmdString := s, Cmds := [], Env := some l, Dir := dir }
          cmdparts = some p'
      ∧ p'.Cmds = [c]
      ∧ c.env = some es
      ∧ es.length = l.length
      ∧ (∀ kv ∈ l, kv.1 ++ "=" ++ Process.expand (some l) amb kv.2 ∈ es)
      ∧ (∀ x ∈ es, ∃ kv ∈ l,
          x = kv.1 ++ "=" ++ Process.expand (some l) amb kv.2) := by
  cases cmdparts with
  | nil => exact absurd rfl hne
  | cons name rest =>
    refine ⟨_, _, _, rfl, rfl, rfl, ?_, ?_, ?_⟩
    · exact List.length_map l _
    · intro kv hkv
      exact List.mem_map_of_mem _ hkv
    · intro x hx
      obtain ⟨kv, hkv, heq⟩ := List.mem_map.mp hx
      exact ⟨kv, hkv, heq.symm⟩

/-- C10 witness at the mapping FOO=bar and the command echo dollar-FOO. -/
theorem claim_C10_witness :
    ∃ p' c es,
      addCmd (fun _ => "")
          { CmdString := "x", Cmds := [], Env := some [("FOO", "bar")],
            Dir := "" } ["echo", "$FOO"] = some p'
      ∧ p'.Cmds = [c]
      ∧ c.env = some es
      ∧ es.length = ([("FOO", "bar")] : List (String × String)).length
      ∧ (∀ kv ∈ ([("FOO", "bar")] : List (String × String)),
          kv.1 ++ "=" ++ Process.expand (some [("FOO", "bar")]) (fun _ => "") kv.2 ∈ es)
      ∧ (∀ x ∈ es, ∃ kv ∈ ([("FOO", "bar")] : List (String × String)),
          x = kv.1 ++ "=" ++ Process.expand (some [("FOO", "bar")]) (fun _ => "") kv.2) :=
  claim_C10_env_entries (fun _ => "") "x" "" [("FOO", "bar")]
    ["echo", "$FOO"] (by decide)

/-- Helper for C5: when every command before index k starts fine and the
command at index k fails to start, the internal start loop returns the
failing command's error; commands before k end up started and waited
(reaped by the deferred loop), the command at k is not started, and
commands after k are never even attempted. -/
theorem pstart_fail (bs : List (Option String × Option String)) (k : Nat)
    (e : String) (hk : k < bs.length)
    (hpre : ∀ i (hi : i < bs.length), i < k → (bs[i]).1 = none)
    (hfail : (bs[k]).1 = some e) :
    ∃ cs', pstart (bs.map mkRuntime) = (cs', some e)
      ∧ cs'.length = bs.length
      ∧ ∀ i (hi : i < cs'.length),
          (i < k → (cs'[i]).started = true ∧ (cs'[i]).waited = true)
          ∧ (i = k → (cs'[i]).started = false)
          ∧ (k < i → (cs'[i]).started = false ∧ (cs'[i]).startAttempts = 0) := by
  induction bs generalizing k with
  | nil => exact absurd hk (Nat.not_lt_zero k)
  | cons b rest ih =>
    cases k with
    | zero =>
      have hb : b.1 = some e := by simpa using hfail
      have h1 : cmdStart (mkRuntime b)
          = ({ mkRuntime b with startAttempts := 1 }, some e) := by
        simp [cmdStart, mkRuntime, hb]
      refine ⟨{ mkRuntime b with startAttempts := 1 } :: rest.map mkRuntime,
        ?_, by simp, ?_⟩
      · simp [pstart, h1]
      · intro i hi
        cases i with
        | zero =>
          refine ⟨fun h => absurd h (Nat.not_lt_zero 0), fun _ => ?_,
            fun h => absurd h (Nat.not_lt_zero 0)⟩
          simp [mkRuntime]
        | succ j =>
          have hj : j < rest.length := by simpa using hi
          refine ⟨fun h => absurd h (Nat.not_lt_zero _), fun h => ?_, fun _ => ?_⟩
          · exact absurd h (Nat.succ_ne_zero j)
          · constructor
            · simp [mkRuntime]
            · simp [mkRuntime]
    | succ k2 =>
      have hb : b.1 = none := by
        have := hpre 0 (Nat.succ_pos _) (Nat.succ_pos _)
        simpa using this
      have hk2 : k2 < rest.length := Nat.lt_of_succ_lt_succ hk
      have hpre2 : ∀ i (hi : i < rest.length), i < k2 → (rest[i]).1 = none := by
        intro i hi hik
        have := hpre (i + 1) (Nat.succ_lt_succ hi) (Nat.succ_lt_succ hik)
        simpa using this
      have hfail2 : (rest[k2]).1 = some e := by simpa using hfail
      obtain ⟨cs2, hps, hlen, hprops⟩ := ih k2 hk2 hpre2 hfail2
      have h1 : cmdStart (mkRuntime b)
          = ({ mkRuntime b with started := true, startAttempts := 1 }, none) := by
        simp [cmdStart, mkRuntime, hb]
      refine ⟨(cmdWaitR { mkRuntime b with started := true, startAttempts := 1 }).1
          :: cs2, ?_, by simpa using hlen, ?_⟩
      · simp [pstart, h1, hps]
      · intro i hi
        cases i with
        | zero =>
          refine ⟨fun _ => ?_, fun h => absurd h.symm (Nat.succ_ne_zero k2),
            fun h => absurd h (Nat.not_lt_zero _)⟩
          constructor
          · simp [cmdWaitR, mkRuntime]
          · simp [cmdWaitR, mkRuntime]
        | succ j =>
          have hj : j < cs2.length := by simpa using hi
          obtain ⟨hlt, heq, hgt⟩ := hprops j hj
          refine ⟨fun h => ?_, fun h => ?_, fun h => ?_⟩
          · have := hlt (Nat.lt_of_succ_lt_succ h)
            simpa using this
          · have := heq (Nat.succ_injective h)
            simpa using this
          · have := hgt (Nat.lt_of_succ_lt_succ h)
            simpa using this

/-- C5: for every pipeline in which command k fails to start (all
earlier commands starting fine), the internal start loop aborts with
that command's own error, never attempting commands after k, reaping
(waiting on) every started command before k, and Run propagates that
same error to its caller. -/
theorem claim_C5_start_failure_aborts_and_reaps
    (bs : List (Option String × Option String)) (k : Nat) (e : String)
    (hk : k < bs.length)
    (hpre : ∀ i (hi : i < bs.length), i < k → (bs[i]).1 = none)
    (hfail : (bs[k]).1 = some e) :
    ∃ cs', pstart (bs.map mkRuntime) = (cs', some e)
      ∧ cs'.length = bs.length
      ∧ (∀ i (hi : i < cs'.length),
          (i < k → (cs'[i]).started = true ∧ (cs'[i]).waited = true)
          ∧ (i = k → (cs'[i]).started = false)
          ∧ (k < i → (cs'[i]).started = false ∧ (cs'[i]).startAttempts = 0))
      ∧ ∀ buf, RunExec buf (bs.map mkRuntime) = (cs', "", some e) := by
  obtain ⟨cs', hps, hlen, hprops⟩ := pstart_fail bs k e hk hpre hfail
  refine ⟨cs', hps, hlen, hprops, ?_⟩
  intro buf
  simp [RunExec, hps]

/-- C5 witness: a three-stage pipeline in which the middle command fails
to start with the error boom. -/
theorem claim_C5_witness :
    ∃ cs', pstart (List.map mkRuntime
        [(none, none), (some "boom", none), (none, some "x")]) = (cs', some "boom")
      ∧ cs'.length = ([(none, none), (some "boom", none), (none, some "x")]
          : List (Option String × Option String)).length
      ∧ (∀ i (hi : i < cs'.length),
          (i < 1 → (cs'[i]).started = true ∧ (cs'[i]).waited = true)
          ∧ (i = 1 → (cs'[i]).started = false)
          ∧ (1 < i → (cs'[i]).started = false ∧ (cs'[i]).startAttempts = 0))
      ∧ ∀ buf, RunExec buf (List.map mkRuntime
          [(none, none), (some "boom", none), (none, some "x")])
          = (cs', "", some "boom") :=
  claim_C5_start_failure_aborts_and_reaps
    [(none, none), (some "boom", none), (none, some "x")] 1 "boom"
    (by decide) (by decide) (by decide)

/-- Helper for C6: every "|" token flushes exactly one group, so the
grouping loop accumulates one group per pipe token. -/
theorem pipeGroups_foldl_len (parts : List String) :
    ∀ (acc : List (List String)) (cur : List String),
      ((parts.foldl pipeStep (acc, cur)).1).length
        = acc.length + parts.count "|" := by
  induction parts with
  | nil => intro acc cur; simp
  | cons p ps ih =>
    intro acc cur
    rw [List.foldl_cons]
    by_cases hp : p = "|"
    · rw [show pipeStep (acc, cur) p = (acc ++ [cur], ([] : List String)) by
        simp [pipeStep, hp]]
      rw [ih]
      simp [hp, List.count_cons]
      omega
    · rw [show pipeStep (acc, cur) p = (acc, cur ++ [p]) by simp [pipeStep, hp]]
      rw [ih]
      simp [List.count_cons, hp]

/-- Helper for C6: the number of pipe groups is the number of "|"
tokens plus one. -/
theorem pipeGroups_length (parts : List String) :
    (pipeGroups parts).length = parts.count "|" + 1 := by
  simp [pipeGroups, pipeGroups_foldl_len]

/-- Helper for C6: addCmd on a nonempty word group appends exactly one
command. -/
theorem addCmd_some (amb : String → String) (p : ProcessState)
    (g : List String) (hg : g ≠ []) :
    ∃ c, addCmd amb p g = some { p with Cmds := p.Cmds ++ [c] } := by
  cases g with
  | nil => exact absurd rfl hg
  | cons n rest => exact ⟨_, rfl⟩

/-- Helper for C6: when no pipe group is empty, the addCmd fold
succeeds and appends one command per group. -/
theorem foldlM_addCmd (amb : String → String) (groups : List (List String)) :
    ∀ (p : ProcessState), (∀ g ∈ groups, g ≠ []) →
      ∃ p', List.foldlM (addCmd amb) p groups = some p'
        ∧ p'.Cmds.length = p.Cmds.length + groups.length := by
  induction groups with
  | nil => intro p _; exact ⟨p, rfl, by simp⟩
  | cons g gs ih =>
    intro p h
    obtain ⟨c, hc⟩ := addCmd_some amb p g (h g (List.mem_cons_self g gs))
    obtain ⟨p', hp', hlen⟩ :=
      ih { p with Cmds := p.Cmds ++ [c] } (fun g2 hg2 => h g2 (List.mem_cons_of_mem _ hg2))
    refine ⟨p', ?_, ?_⟩
    · rw [List.foldlM_cons, hc]
      simpa using hp'
    · simp only [List.length_append, List.length_cons, List.length_nil] at hlen ⊢
      omega

/-- Helper for C6: wiring does not change the number of commands. -/
theorem wireList_length (last : Nat) :
    ∀ (j : Nat) (l : List Cmd), (wireList last j l).length = l.length := by
  intro j l
  induction l generalizing j with
  | nil => rfl
  | cons c cs ih => simp [wireList, ih]

/-- Helper for C6: the wired list applies wireCmd at the shifted
position of each command. -/
theorem wireList_getElem (last : Nat) :
    ∀ (l : List Cmd) (j i : Nat) (hi : i < l.length)
      (hi2 : i < (wireList last j l).length),
      (wireList last j l)[i] = wireCmd last (j + i) (l[i]) := by
  intro l
  induction l with
  | nil => intro j i hi _; exact absurd hi (Nat.not_lt_zero i)
  | cons c cs ih =>
    intro j i hi hi2
    cases i with
    | zero => simp [wireList]
    | succ j2 =>
      have h1 : j2 < cs.length := Nat.lt_of_succ_lt_succ hi
      have h2 : j2 < (wireList last (j + 1) cs).length := by
        rw [wireList_length]; exact h1
      have step : (wireList last j (c :: cs))[j2 + 1]
          = (wireList last (j + 1) cs)[j2] := by
        simp [wireList]
      rw [step, ih (j + 1) j2 h1 h2]
      have harith : j + 1 + j2 = j + (j2 + 1) := by omega
      rw [harith]
      simp

/-- Helper for C6: the stdin wiring of every command after the first. -/
theorem wireCmd_stdin_succ (last i : Nat) (c : Cmd) :
    (wireCmd last (i + 1) c).stdin = StdinSrc.pipeFromStdout i := by
  unfold wireCmd
  rw [if_pos (Nat.succ_le_succ (Nat.zero_le i))]
  by_cases h2 : i + 1 < last
  · rw [if_pos h2]
    simp
  · rw [if_neg h2]
    simp

/-- C6: for every token list with k pipe tokens and no empty word
groups, building produces exactly k + 1 commands (so exactly one when
there is no pipe token), and setupPipes connects the standard input of
stage i + 1 to the standard output pipe of stage i for every i below
the last index. -/
theorem claim_C6_stage_count_and_wiring (amb : String → String)
    (s dir : String) (env? : Option (List (String × String)))
    (parts : List String)
    (hg : ∀ g ∈ pipeGroups parts, g ≠ []) :
    ∃ p' wired,
      findCmdsFromParts amb
          { CmdString := s, Cmds := [], Env := env?, Dir := dir } parts
        = some p'
      ∧ p'.Cmds.length = parts.count "|" + 1
      ∧ setupPipes p'.Cmds = some wired
      ∧ wired.length = p'.Cmds.length
      ∧ ∀ i (hi : i + 1 < wired.length),
          (wired[i + 1]).stdin = StdinSrc.pipeFromStdout i := by
  obtain ⟨p', hp', hlen⟩ := foldlM_addCmd amb (pipeGroups parts)
    { CmdString := s, Cmds := [], Env := env?, Dir := dir } hg
  have hlen2 : p'.Cmds.length = parts.count "|" + 1 := by
    rw [hlen, pipeGroups_length]
    simp
  have hne : p'.Cmds ≠ [] := by
    intro h
    rw [h] at hlen2
    simp at hlen2
  obtain ⟨c0, cs0, hcons⟩ := List.exists_cons_of_ne_nil hne
  have hsp : setupPipes p'.Cmds
      = some (wireList (p'.Cmds.length - 1) 0 p'.Cmds) := by
    rw [hcons]
    rfl
  refine ⟨p', wireList (p'.Cmds.length - 1) 0 p'.Cmds, hp', hlen2, hsp,
    wireList_length _ _ _, ?_⟩
  intro i hi
  have hi2 : i + 1 < p'.Cmds.length := by
    rwa [wireList_length] at hi
  rw [wireList_getElem (p'.Cmds.length - 1) p'.Cmds 0 (i + 1) hi2 hi]
  rw [Nat.zero_add]
  exact wireCmd_stdin_succ _ i _

/-- C6 witness: the token list of "echo hi|wc -l", one pipe token, two
stages, second stage's stdin fed by the first stage's stdout pipe. -/
theorem claim_C6_witness :
    ∃ p' wired,
      findCmdsFromParts (fun _ => "")
          { CmdString := "echo hi|wc -l", Cmds := [], Env := none, Dir := "" }
          ["echo", "hi", "|", "wc", "-l"] = some p'
      ∧ p'.Cmds.length
          = (["echo", "hi", "|", "wc", "-l"] : List String).count "|" + 1
      ∧ setupPipes p'.Cmds = some wired
      ∧ wired.length = p'.Cmds.length
      ∧ ∀ i (hi : i + 1 < wired.length),
          (wired[i + 1]).stdin = StdinSrc.pipeFromStdout i :=
  claim_C6_stage_count_and_wiring (fun _ => "") "echo hi|wc -l" "" none
    ["echo", "hi", "|", "wc", "-l"] (by decide)

/-- Helper for C7 and C8: a newline-free input splits into no complete
line, all of it trailing. -/
theorem splitNL_no_nl (b : List Char) (hb : ∀ c ∈ b, c ≠ '\n') :
    splitNL b = ([], b) := by
  induction b with
  | nil => rfl
  | cons c rest ih =>
    have hc : c ≠ '\n' := hb c (List.mem_cons_self c rest)
    have hr : splitNL rest = ([], rest) :=
      ih (fun x hx => hb x (List.mem_cons_of_mem c hx))
    simp [splitNL, hr, hc]

/-- Helper for C7 and C8: a newline placed after a newline-free prefix
completes exactly that prefix as a line. -/
theorem splitNL_append_nl (b rest : List Char) (hb : ∀ c ∈ b, c ≠ '\n') :
    splitNL (b ++ '\n' :: rest) = (b :: (splitNL rest).1, (splitNL rest).2) := by
  induction b with
  | nil => simp [splitNL]
  | cons c b2 ih =>
    have hc : c ≠ '\n' := hb c (List.mem_cons_self c b2)
    have hr := ih (fun x hx => hb x (List.mem_cons_of_mem c hx))
    simp only [List.cons_append, splitNL, List.append_eq]
    rw [hr]
    simp [hc]

/-- Helper for C7 and C8: the trailing part of a split never contains a
newline. -/
theorem splitNL_tail_no_nl (l : List Char) :
    ∀ c ∈ (splitNL l).2, c ≠ '\n' := by
  induction l with
  | nil => intro c hc; simp [splitNL] at hc
  | cons a rest ih =>
    intro c hc
    by_cases ha : a = '\n'
    · rw [show splitNL (a :: rest) = (([] : List Char) :: (splitNL rest).1,
        (splitNL rest).2) by simp [splitNL, ha]] at hc
      exact ih c hc
    · rcases h1 : (splitNL rest).1 with _ | ⟨l0, ls⟩
      · rw [show splitNL (a :: rest) = ([], a :: (splitNL rest).2) by
          simp [splitNL, ha, h1]] at hc
        rcases List.mem_cons.mp hc with h | h
        · rw [h]; exact ha
        · exact ih c h
      · rw [show splitNL (a :: rest) = ((a :: l0) :: ls, (splitNL rest).2) by
          simp [splitNL, ha, h1]] at hc
        exact ih c hc

/-- Helper for C7 and C8: scanning a concatenation of two chunks is
scanning the first and then the second from the carried-over pending
buffer; chunk boundaries are invisible to the reader. -/
theorem processChunk_append (h : Option (String → String)) (u : List Char) :
    ∀ (v b : List Char),
      processChunk h b (u ++ v)
        = ((processChunk h b u).1 ++ (processChunk h (processChunk h b u).2 v).1,
           (processChunk h (processChunk h b u).2 v).2) := by
  induction u with
  | nil => intro v b; simp [processChunk]
  | cons c u2 ih =>
    intro v b
    by_cases hc : c = '\n'
    · simp only [List.cons_append, processChunk, hc, if_pos, List.append_eq]
      rw [ih v []]
      simp [List.append_assoc]
    · simp only [List.cons_append, processChunk, hc, if_neg, ite_false,
        List.append_eq]
      exact ih v (b ++ [c])

/-- Helper for C7 and C8: the outer read loop computes the same output
as one scan over the flattened input; the pending buffer threads
through the chunk boundaries. -/
theorem lineReaderLoop_flatten (h : Option (String → String)) :
    ∀ (chunks : List (List Char)) (b : List Char),
      lineReaderLoop h chunks b = (processChunk h b chunks.flatten).1 := by
  intro chunks
  induction chunks with
  | nil => intro b; simp [lineReaderLoop, processChunk]
  | cons chunk rest ih =>
    intro b
    simp only [lineReaderLoop, List.flatten_cons]
    rw [ih (processChunk h b chunk).2, processChunk_append]

/-- Helper for C7 and C8: one scan from a newline-free pending buffer
produces exactly the handler images of the complete lines, and leaves
the trailing data pending. -/
theorem processChunk_splitNL (h : Option (String → String)) :
    ∀ (input b : List Char), (∀ c ∈ b, c ≠ '\n') →
      processChunk h b input
        = (((splitNL (b ++ input)).1.map (applyHandler h)).flatten,
           (splitNL (b ++ input)).2) := by
  intro input
  induction input with
  | nil =>
    intro b hb
    rw [List.append_nil, splitNL_no_nl b hb]
    simp [processChunk]
  | cons c rest ih =>
    intro b hb
    by_cases hc : c = '\n'
    · subst hc
      rw [splitNL_append_nl b rest hb]
      simp only [processChunk, if_pos]
      rw [ih [] (by intro x hx; simp at hx)]
      simp
    · have hb2 : ∀ x ∈ b ++ [c], x ≠ '\n' := by
        intro x hx
        rcases List.mem_append.mp hx with h1 | h1
        · exact hb x h1
        · simp at h1
          rw [h1]
          exact hc
      have step : processChunk h b (c :: rest) = processChunk h (b ++ [c]) rest := by
        simp [processChunk, hc]
      rw [step, ih (b ++ [c]) hb2, List.append_assoc]
      simp

/-- Helper for C8: appending newline-free data completes no further
line. -/
theorem splitNL_append_no_nl (t : List Char) (ht : ∀ c ∈ t, c ≠ '\n') :
    ∀ (x : List Char), (splitNL (x ++ t)).1 = (splitNL x).1 := by
  intro x
  induction x with
  | nil => simp [splitNL_no_nl t ht, splitNL]
  | cons c x2 ih =>
    by_cases hc : c = '\n'
    · simp [splitNL, hc, ih]
    · rcases h1 : (splitNL x2).1 with _ | ⟨l0, ls⟩
      · simp [splitNL, hc, ih, h1]
      · simp [splitNL, hc, ih, h1]

/-- C7: for every stream, the reader's contribution to the output
buffer is exactly the concatenation, without any re-added delimiter, of
the handler images of the complete lines of the stream, each line taken
without its trailing newline (splitNL yields the newline-terminated
lines with the newline stripped); in particular an uppercasing handler
on a stream containing hello and world on two newline-terminated lines
buffers HELLOWORLD. -/
theorem claim_C7_line_transform_no_delimiter :
    (∀ (h : Option (String → String)) (chunks : List (List Char)),
      lineReader h chunks
        = ((splitNL chunks.flatten).1.map (applyHandler h)).flatten)
  ∧ lineReader (some upString) [("hello\nworld\n").data]
      = ("HELLOWORLD").data := by
  constructor
  · intro h chunks
    simp only [lineReader]
    rw [lineReaderLoop_flatten h chunks [],
      processChunk_splitNL h chunks.flatten [] (by intro c hc; simp at hc)]
    simp
  · decide

/-- C8: a reader task terminates at end of input (the model's read loop
is a total function of the chunk list), and trailing data with no
terminating newline is discarded: appending any newline-free data to
the stream leaves the buffered output unchanged. -/
theorem claim_C8_trailing_data_discarded (h : Option (String → String))
    (chunks tl : List (List Char)) (ht : ∀ c ∈ tl.flatten, c ≠ '\n') :
    lineReader h (chunks ++ tl) = lineReader h chunks := by
  simp only [lineReader]
  rw [lineReaderLoop_flatten h (chunks ++ tl) [],
    lineReaderLoop_flatten h chunks [],
    processChunk_splitNL h ((chunks ++ tl).flatten) []
      (by intro c hc; simp at hc),
    processChunk_splitNL h chunks.flatten [] (by intro c hc; simp at hc)]
  simp only [List.nil_append, List.flatten_append]
  rw [splitNL_append_no_nl tl.flatten ht chunks.flatten]

/-- C8 witness: two trailing newline-free chunks after one complete
line leave the buffered output unchanged. -/
theorem claim_C8_witness :
    (∀ c ∈ ([['x'], ['y']] : List (List Char)).flatten, c ≠ '\n')
  ∧ lineReader none ([['a', '\n']] ++ [['x'], ['y']])
      = lineReader none [['a', '\n']] :=
  ⟨by decide,
    claim_C8_trailing_data_discarded none [['a', '\n']] [['x'], ['y']]
      (by decide)⟩
